import Mathlib

/-!
# Verification of the Wrapper migration shim

Shallow embedding of the connection-preserving migration shim
(`github.com/Liangxia6/Wrapper`): the server-side rebindable UDP endpoint
(`MigratableUDP`), the client-side peer-swapping UDP endpoint
(`SwappableUDPConn`), the newline-framed JSON control codec
(`WriteLine` / `LineReader.Next`) and the client control loop
(`Manager.controlLoop`).

Go values are modelled as follows: `*net.UDPAddr` becomes `Option UDPAddr`
(`none` is the nil pointer), `net.IP` (a byte slice) becomes `List Nat`,
`uint64` counters become `Nat` reduced modulo `2 ^ 64` at each increment,
Go strings become `List Char`, and functions that can fail return `Option`
or a dedicated result type.  Kernel-side behaviour (socket creation,
datagram arrival) is supplied through explicit oracle values so that each
operation stays a pure function of its inputs.
-/

namespace Wrapper

/-! ## Addresses (`net.UDPAddr`, `net.IP`) -/

/-- Model of `net.UDPAddr`: `IP` is a byte slice (list of bytes), `Port` a
Go `int`, `Zone` a string (ignored by `udpAddrEqual`). -/
structure UDPAddr where
  ip : List Nat
  port : Int
  zone : List Char := []
deriving DecidableEq, Repr

/-- The IPv4-in-IPv6 prefix used by `net.IP.To16` (ten zero bytes followed
by two `0xff` bytes). -/
def v4InV6Prefix : List Nat := [0, 0, 0, 0, 0, 0, 0, 0, 0, 0, 0xff, 0xff]

/-- Model of `net.IP.To16`: a 4-byte address is widened to the 16-byte
IPv4-mapped form, a 16-byte address is returned unchanged, and any other
length yields `none` (Go returns a nil slice). -/
def ipTo16 (ip : List Nat) : Option (List Nat) :=
  if ip.length = 4 then some (v4InV6Prefix ++ ip)
  else if ip.length = 16 then some ip
  else none

/-- Model of `udpAddrEqual` from `swappable_udp.go`: `false` if either
pointer is nil, `false` on differing ports, otherwise both IPs are
normalized with `To16` and compared byte-wise (`false` if either
normalization fails). -/
def udpAddrEqual (a b : Option UDPAddr) : Bool :=
  match a, b with
  | none, _ => false
  | _, none => false
  | some a, some b =>
    if a.port ≠ b.port then false
    else
      match ipTo16 a.ip, ipTo16 b.ip with
      | some ai, some bi => ai = bi
      | _, _ => false

/-! ## Sockets and the kernel oracle -/

/-- A kernel UDP socket as observable through the wrapper: an identity tag
plus the network and local address it was bound with. -/
structure Socket where
  sid : Nat
  network : List Char
  laddr : Option UDPAddr
deriving DecidableEq, Repr

/-- Oracle for `net.ListenUDP`: `nextSid` numbers the sockets the kernel
hands out, `binds` lists the outcomes of the upcoming bind calls (`true` =
success; exhausted list means success). -/
structure Kernel where
  nextSid : Nat
  binds : List Bool
deriving DecidableEq, Repr

/-- Model of `net.ListenUDP network laddr`: consumes one entry of the bind
oracle; on success returns a fresh socket bound to the requested local
address. -/
def listenUDP (k : Kernel) (network : List Char) (laddr : Option UDPAddr) :
    Kernel × Option Socket :=
  let k' : Kernel := { nextSid := k.nextSid + 1, binds := k.binds.tail }
  if k.binds.headD true then
    (k', some { sid := k.nextSid, network := network, laddr := laddr })
  else
    (k', none)

/-! ## Peer-swapping endpoint (`SwappableUDPConn`, client side) -/

/-- State of `SwappableUDPConn`: the outbound socket and its generation
counter, the real peer, the armed peer and the fixed fake (logical) peer.
`fakePeer` has interface type `net.Addr` in Go; it is only ever a
`*net.UDPAddr`, so it is modelled the same way as the peer slots. -/
structure SwappableUDPConn where
  network : List Char
  laddr : Option UDPAddr
  conn : Option Socket
  gen : Nat
  realPeer : Option UDPAddr
  armedPeer : Option UDPAddr
  fakePeer : Option UDPAddr
deriving DecidableEq, Repr

namespace SwappableUDPConn

/-- `SwappableUDPConn.SetPeer`: unconditionally replaces the real peer. -/
def SetPeer (s : SwappableUDPConn) (peer : Option UDPAddr) : SwappableUDPConn :=
  { s with realPeer := peer }

/-- `SwappableUDPConn.ArmPeer`: stores the candidate peer in the armed
slot without touching the real peer. -/
def ArmPeer (s : SwappableUDPConn) (peer : Option UDPAddr) : SwappableUDPConn :=
  { s with armedPeer := peer }

/-- `SwappableUDPConn.CutoverToArmedPeer`: returns `false` when no armed
peer is present, or when the real peer is non-nil and equals the armed
peer under `udpAddrEqual`; otherwise copies the armed peer into the real
peer slot and returns `true`.  Note the source does not clear
`armedPeer`. -/
def CutoverToArmedPeer (s : SwappableUDPConn) : SwappableUDPConn × Bool :=
  match s.armedPeer with
  | none => (s, false)
  | some _ =>
    if s.realPeer.isSome ∧ udpAddrEqual s.realPeer s.armedPeer then (s, false)
    else ({ s with realPeer := s.armedPeer }, true)

/-- `SwappableUDPConn.getPeer`: snapshot of the real peer. -/
def getPeer (s : SwappableUDPConn) : Option UDPAddr :=
  s.realPeer

end SwappableUDPConn

/-- One outcome of a kernel `ReadFromUDP` call as seen by the retry loops:
either a datagram of `n` bytes from `src`, or an I/O error
(`closing = true` when `isNetClosing` would report it as
"use of closed network connection"). -/
inductive NetEvent where
  | pkt (n : Nat) (src : Option UDPAddr)
  | ioErr (closing : Bool)
deriving DecidableEq, Repr

/-- Result of a `ReadFrom` call. `blocked` stands for a call still waiting
on the kernel after consuming every supplied event. -/
inductive ReadResult where
  | ok (n : Nat) (addr : Option UDPAddr)
  | errConnNil
  | errSurfaced
  | blocked
deriving DecidableEq, Repr

namespace SwappableUDPConn

/-- The body of the `SwappableUDPConn.ReadFrom` loop on a quiescent
endpoint (no concurrent rebind, so the generation recheck after a closing
error always finds the same socket and the error is surfaced).  A datagram
is dropped and the loop re-entered exactly when the real peer and the
kernel source are both non-nil and differ under `udpAddrEqual`; an
accepted datagram is reported with the fake peer as source when the fake
peer is non-nil, and with the kernel source otherwise. -/
def readFromLoop (s : SwappableUDPConn) : List NetEvent → ReadResult
  | [] => .blocked
  | .pkt n src :: rest =>
    if s.getPeer.isSome ∧ src.isSome ∧ ¬udpAddrEqual s.getPeer src then
      readFromLoop s rest
    else
      match s.fakePeer with
      | some fp => .ok n (some fp)
      | none => .ok n src
  | .ioErr _ :: _ => .errSurfaced

/-- `SwappableUDPConn.ReadFrom` on a quiescent endpoint: fails immediately
with the "udp conn is nil" error when the socket slot is empty, otherwise
runs the receive loop over the supplied kernel events. -/
def ReadFrom (s : SwappableUDPConn) (evs : List NetEvent) : ReadResult :=
  match s.conn with
  | none => .errConnNil
  | some _ => readFromLoop s evs

end SwappableUDPConn

/-! ## Rebindable endpoint (`MigratableUDP`, server side) -/

/-- State of `MigratableUDP`: the network tag, the intended local address,
the current kernel socket (nil once closed) and the 64-bit generation
counter. -/
structure MigratableUDP where
  network : List Char
  laddr : Option UDPAddr
  conn : Option Socket
  gen : Nat
deriving DecidableEq, Repr

/-- Result of `MigratableUDP.Rebind`. `bindFailure` is the `net.ListenUDP`
error propagated unchanged; `connNil` is the "udp conn is nil" error
returned when rebind races with `Close`. -/
inductive RebindResult where
  | ok
  | bindFailure
  | connNil
deriving DecidableEq, Repr

/-- Observable side effects of one `Rebind` call, in program order. -/
inductive RebindEvent where
  /-- `net.ListenUDP` bound a fresh socket. -/
  | bindNew (sid : Nat)
  /-- The swap was published under the mutex: `conn` now holds `newSid`
  and the generation moved to `newGen`. -/
  | publish (oldSid newSid newGen : Nat)
  /-- A socket was closed. -/
  | closeSock (sid : Nat)
deriving DecidableEq, Repr

namespace MigratableUDP

/-- `ListenMigratableUDP`: binds the initial socket; on success the
endpoint starts at generation 1. -/
def ListenMigratableUDP (k : Kernel) (network : List Char)
    (laddr : Option UDPAddr) : Kernel × Option MigratableUDP :=
  match listenUDP k network laddr with
  | (k', none) => (k', none)
  | (k', some c) =>
    (k', some { network := network, laddr := laddr, conn := some c, gen := 1 })

/-- `MigratableUDP.Rebind`: create the new socket first (a failure leaves
the endpoint untouched); under the mutex capture the old socket, install
the new one and increment the generation; only then close the old socket.
If the endpoint was concurrently closed (`conn = nil`), the fresh socket
is closed again and the conn-nil error is returned. -/
def Rebind (k : Kernel) (m : MigratableUDP) :
    Kernel × MigratableUDP × RebindResult × List RebindEvent :=
  match listenUDP k m.network m.laddr with
  | (k', none) => (k', m, .bindFailure, [])
  | (k', some newConn) =>
    match m.conn with
    | none => (k', m, .connNil, [.bindNew newConn.sid, .closeSock newConn.sid])
    | some old =>
      let newGen := (m.gen + 1) % 2 ^ 64
      (k', { m with conn := some newConn, gen := newGen }, .ok,
        [.bindNew newConn.sid, .publish old.sid newConn.sid newGen,
          .closeSock old.sid])

/-- `MigratableUDP.Close`: a no-op returning a nil error on an already
closed endpoint; otherwise closes the socket (kernel close of an owned
socket succeeds, i.e. returns a nil error), clears the slot and increments
the generation.  The returned `Option` is the Go `error` (`none` = nil). -/
def Close (m : MigratableUDP) : MigratableUDP × Option Unit :=
  match m.conn with
  | none => (m, none)
  | some _ => ({ m with conn := none, gen := (m.gen + 1) % 2 ^ 64 }, none)

/-- The body of the `MigratableUDP.ReadFrom` loop on a quiescent endpoint
(no concurrent rebind, so after a closing error the generation recheck
finds the same socket and the error is surfaced). -/
def readFromLoop : List NetEvent → ReadResult
  | [] => .blocked
  | .pkt n src :: _ => .ok n src
  | .ioErr _ :: _ => .errSurfaced

/-- `MigratableUDP.ReadFrom` on a quiescent endpoint: the "udp conn is
nil" error once closed, otherwise the receive loop. -/
def ReadFrom (m : MigratableUDP) (evs : List NetEvent) : ReadResult :=
  match m.conn with
  | none => .errConnNil
  | some _ => readFromLoop evs

/-- Result of a `WriteTo` call, mirroring `ReadResult` for the send
path. -/
inductive WriteResult where
  | ok (n : Nat)
  | errConnNil
  | errSurfaced
deriving DecidableEq, Repr

/-- `MigratableUDP.WriteTo` on a quiescent endpoint: the "udp conn is nil"
error once closed, otherwise the kernel send outcome (`some n` = wrote `n`
bytes, `none` = non-closing I/O error, surfaced because the generation
did not change). -/
def WriteTo (m : MigratableUDP) (kernelSend : Option Nat) : WriteResult :=
  match m.conn with
  | none => .errConnNil
  | some _ =>
    match kernelSend with
    | some n => .ok n
    | none => .errSurfaced

/-- `MigratableUDP.SetDeadline` (and its read/write variants, which have
identical bodies): snapshots `m.conn` and calls `SetDeadline` on it with
no nil check.  On a closed endpoint the snapshot is a nil pointer and the
call dereferences it — modelled as `none` (a runtime panic, not an error
return); on a live endpoint the kernel call succeeds (`some ()` = nil
error). -/
def SetDeadline (m : MigratableUDP) : Option Unit :=
  match m.conn with
  | none => none
  | some _ => some ()

/-- `N` consecutive `Rebind` calls, threading the kernel oracle. -/
def rebindIter : Nat → Kernel → MigratableUDP → Kernel × MigratableUDP
  | 0, k, m => (k, m)
  | n + 1, k, m =>
    let r := Rebind k m
    rebindIter n r.1 r.2.1

end MigratableUDP

/-! ## Control messages (`control.go`) -/

/-- Model of the `Message` struct from `control.go`.  Go strings become
`List Char`; `NewPort int` becomes `Int`.  The JSON tags are `type` (no
`omitempty`) and `id`, `client_id`, `new_addr`, `new_port`, `ack_id` (all
`omitempty`). -/
structure Message where
  type : List Char
  id : List Char
  clientID : List Char
  newAddr : List Char
  newPort : Int
  ackID : List Char
deriving DecidableEq, Repr

/-- The zero `Message`, the value `json.Unmarshal` starts from. -/
def zeroMessage : Message :=
  { type := [], id := [], clientID := [], newAddr := [], newPort := 0, ackID := [] }

def TypeHello : List Char := "hello".data
def TypeMigrate : List Char := "migrate".data
def TypeAck : List Char := "ack".data

/-- A flat JSON value as produced and consumed by the control codec
(string or integer). -/
inductive JVal where
  | jstr (s : List Char)
  | jint (n : Int)
deriving DecidableEq, Repr

/-- Lower-case hexadecimal digit characters (also the decimal digits for
`n < 10`). -/
def hexDigitChar (n : Nat) : Char :=
  match n with
  | 0 => '0' | 1 => '1' | 2 => '2' | 3 => '3' | 4 => '4'
  | 5 => '5' | 6 => '6' | 7 => '7' | 8 => '8' | 9 => '9'
  | 10 => 'a' | 11 => 'b' | 12 => 'c' | 13 => 'd' | 14 => 'e' | _ => 'f'

/-- `encoding/json` string escaping for one character (default encoder,
HTML escaping on): `"` and `\` are backslash-escaped, `\n`/`\r`/`\t` get
their short forms, other control characters and `<`, `>`, `&` become
backslash-u-00XX, U+2028 and U+2029 become backslash-u-202X, everything
else is emitted verbatim. -/
def escChar (c : Char) : List Char :=
  if c = '"' then ['\\', '"']
  else if c = '\\' then ['\\', '\\']
  else if c = '\n' then ['\\', 'n']
  else if c = '\r' then ['\\', 'r']
  else if c = '\t' then ['\\', 't']
  else if c.toNat < 0x20 ∨ c = '<' ∨ c = '>' ∨ c = '&' then
    ['\\', 'u', '0', '0', hexDigitChar (c.toNat / 16), hexDigitChar (c.toNat % 16)]
  else if c.toNat = 0x2028 ∨ c.toNat = 0x2029 then
    ['\\', 'u', '2', '0', '2', hexDigitChar (c.toNat % 16)]
  else [c]

/-- JSON escaping of a whole string. -/
def escapeString : List Char → List Char
  | [] => []
  | c :: cs => escChar c ++ escapeString cs

/-- Decimal rendering of a natural number, most significant digit first,
with the digits so far as accumulator; `fuel` bounds the digit count (any
`fuel > n` is enough). -/
def natToCharsCore : Nat → Nat → List Char → List Char
  | 0, _, acc => acc
  | fuel + 1, n, acc =>
    if n < 10 then hexDigitChar n :: acc
    else natToCharsCore fuel (n / 10) (hexDigitChar (n % 10) :: acc)

/-- Decimal rendering of a natural number (`strconv` format). -/
def natToChars (n : Nat) : List Char :=
  natToCharsCore (n + 1) n []

/-- Decimal rendering of an integer (`strconv` format, as used by
`json.Marshal` for `int` fields and by `fmt.Sprintf "%d"`). -/
def intToChars (i : Int) : List Char :=
  if i < 0 then '-' :: natToChars (-i).toNat else natToChars i.toNat

/-- Rendering of a flat JSON value. -/
def renderJVal : JVal → List Char
  | .jstr s => '"' :: (escapeString s ++ ['"'])
  | .jint n => intToChars n

/-- Rendering of one `"key":value` pair. -/
def renderPair (p : List Char × JVal) : List Char :=
  '"' :: (escapeString p.1 ++ '"' :: ':' :: renderJVal p.2)

/-- Comma-separated rendering of the pair list. -/
def renderPairs : List (List Char × JVal) → List Char
  | [] => []
  | [p] => renderPair p
  | p :: ps => renderPair p ++ ',' :: renderPairs ps

/-- The key/value pairs `json.Marshal` emits for a `Message`, in struct
field order, honouring `omitempty` (empty string / zero int fields are
omitted; `type` is always present). -/
def fieldsOf (m : Message) : List (List Char × JVal) :=
  [("type".data, JVal.jstr m.type)]
    ++ (if m.id = [] then [] else [("id".data, JVal.jstr m.id)])
    ++ (if m.clientID = [] then [] else [("client_id".data, JVal.jstr m.clientID)])
    ++ (if m.newAddr = [] then [] else [("new_addr".data, JVal.jstr m.newAddr)])
    ++ (if m.newPort = 0 then [] else [("new_port".data, JVal.jint m.newPort)])
    ++ (if m.ackID = [] then [] else [("ack_id".data, JVal.jstr m.ackID)])

/-- `json.Marshal` of a `Message`: one flat JSON object. -/
def marshalMessage (m : Message) : List Char :=
  '{' :: (renderPairs (fieldsOf m) ++ ['}'])

/-- `WriteLine`: the marshalled message followed by a single `\n`. -/
def WriteLine (m : Message) : List Char :=
  marshalMessage m ++ ['\n']

/-! ### The decoder (`json.Unmarshal` on the control-message grammar)

Model of `json.Unmarshal` restricted to the grammar the codec actually
exchanges: a single flat object whose values are strings or integers,
without insignificant whitespace.  Inputs outside this grammar are decode
failures (`none`). -/

/-- Value of an ASCII hex digit. -/
def hexVal (c : Char) : Option Nat :=
  if '0' ≤ c ∧ c ≤ '9' then some (c.toNat - 48)
  else if 'a' ≤ c ∧ c ≤ 'f' then some (c.toNat - 87)
  else if 'A' ≤ c ∧ c ≤ 'F' then some (c.toNat - 55)
  else none

/-- Single-character JSON escapes. -/
def unescChar (e : Char) : Option Char :=
  if e = '"' then some '"'
  else if e = '\\' then some '\\'
  else if e = '/' then some '/'
  else if e = 'b' then some (Char.ofNat 8)
  else if e = 'f' then some (Char.ofNat 12)
  else if e = 'n' then some '\n'
  else if e = 'r' then some '\r'
  else if e = 't' then some '\t'
  else none

/-- Parse the body of a JSON string literal (the opening quote already
consumed); returns the decoded content and the input after the closing
quote. -/
def parseStrBody : List Char → Option (List Char × List Char)
  | [] => none
  | c :: rest =>
    if c = '"' then some ([], rest)
    else if c = '\\' then
      match rest with
      | [] => none
      | e :: rest2 =>
        if e = 'u' then
          match rest2 with
          | h1 :: h2 :: h3 :: h4 :: rest3 =>
            match hexVal h1, hexVal h2, hexVal h3, hexVal h4 with
            | some a, some b, some c4, some d =>
              match parseStrBody rest3 with
              | some (s, r) =>
                some (Char.ofNat (4096 * a + 256 * b + 16 * c4 + d) :: s, r)
              | none => none
            | _, _, _, _ => none
          | _ => none
        else
          match unescChar e with
          | some u =>
            match parseStrBody rest2 with
            | some (s, r) => some (u :: s, r)
            | none => none
          | none => none
    else
      match parseStrBody rest with
      | some (s, r) => some (c :: s, r)
      | none => none

/-- ASCII decimal digit test. -/
def isDigitC (c : Char) : Bool := '0' ≤ c ∧ c ≤ '9'

/-- Consume a run of decimal digits, accumulating their value. -/
def parseDigits (acc : Nat) : List Char → Nat × List Char
  | [] => (acc, [])
  | c :: rest =>
    if isDigitC c then parseDigits (10 * acc + (c.toNat - 48)) rest
    else (acc, c :: rest)

/-- Parse one flat JSON value (string literal or integer). -/
def parseJVal : List Char → Option (JVal × List Char)
  | [] => none
  | '"' :: rest =>
    match parseStrBody rest with
    | some (s, r) => some (.jstr s, r)
    | none => none
  | '-' :: rest =>
    match rest with
    | c :: _ =>
      if isDigitC c then
        let p := parseDigits 0 rest
        some (.jint (-(p.1 : Int)), p.2)
      else none
    | [] => none
  | l@(c :: _) =>
    if isDigitC c then
      let p := parseDigits 0 l
      some (.jint (p.1 : Int), p.2)
    else none

/-- Apply one decoded key/value pair to the message being built, mirroring
`json.Unmarshal` field matching: known keys require the value type of the
struct field (a mismatch is a decode error), unknown keys are ignored. -/
def assign (m : Message) (key : List Char) (v : JVal) : Option Message :=
  if key = "type".data then
    match v with | .jstr s => some { m with type := s } | _ => none
  else if key = "id".data then
    match v with | .jstr s => some { m with id := s } | _ => none
  else if key = "client_id".data then
    match v with | .jstr s => some { m with clientID := s } | _ => none
  else if key = "new_addr".data then
    match v with | .jstr s => some { m with newAddr := s } | _ => none
  else if key = "new_port".data then
    match v with | .jint n => some { m with newPort := n } | _ => none
  else if key = "ack_id".data then
    match v with | .jstr s => some { m with ackID := s } | _ => none
  else some m

/-- Parse a non-empty sequence of `"key":value` pairs followed by the
closing brace; `fuel` bounds the number of pairs. -/
def parsePairs : Nat → Message → List Char → Option (Message × List Char)
  | 0, _, _ => none
  | fuel + 1, m, input =>
    match input with
    | '"' :: r =>
      match parseStrBody r with
      | some (key, r1) =>
        match r1 with
        | ':' :: r2 =>
          match parseJVal r2 with
          | some (v, r3) =>
            match assign m key v with
            | some m' =>
              match r3 with
              | ',' :: r4 => parsePairs fuel m' r4
              | '}' :: r4 => some (m', r4)
              | _ => none
            | none => none
          | none => none
        | _ => none
      | none => none
    | _ => none

/-- Sequential application of decoded key/value pairs, as `json.Unmarshal`
performs it while walking the object. -/
def assignAll (m : Message) : List (List Char × JVal) → Option Message
  | [] => some m
  | p :: ps =>
    match assign m p.1 p.2 with
    | some m' => assignAll m' ps
    | none => none

/-- `json.Unmarshal` into a `Message`: a single JSON object consuming the
whole input. -/
def parseMessage (input : List Char) : Option Message :=
  match input with
  | '{' :: '}' :: rest => if rest = [] then some zeroMessage else none
  | '{' :: r =>
    match parsePairs (input.length + 1) zeroMessage r with
    | some (m, rest) => if rest = [] then some m else none
    | none => none
  | _ => none

/-! ### Line framing (`bufio.Scanner` with `ScanLines`) -/

/-- `dropCR`: strip one trailing carriage return from a scanned line. -/
def dropCR (l : List Char) : List Char :=
  match l.getLast? with
  | some c => if c = '\r' then l.dropLast else l
  | none => l

/-- Split the buffer at the first newline (consumed). -/
def splitFirstLine : List Char → Option (List Char × List Char)
  | [] => none
  | '\n' :: rest => some ([], rest)
  | c :: rest =>
    match splitFirstLine rest with
    | some (l, r) => some (c :: l, r)
    | none => none

/-- One `Scanner.Scan` with `ScanLines`: the text up to the first newline
(CR stripped), or the remaining data at EOF, or end of input. -/
def scanNext (buf : List Char) : Option (List Char × List Char) :=
  match splitFirstLine buf with
  | some (l, r) => some (dropCR l, r)
  | none => if buf = [] then none else some (dropCR buf, [])

/-- Outcome of one `LineReader.Next` call: end of stream (`ok = false`),
a decoded message, or the "bad control message" decode failure (which Go
reports with `ok = true` and a non-nil error). -/
inductive NextResult where
  | eof
  | msg (m : Message)
  | decodeErr
deriving DecidableEq, Repr

/-- `LineReader.Next` on a buffer: scan one line and unmarshal it;
returns the result together with the unread rest of the buffer. -/
def lineNext (buf : List Char) : NextResult × List Char :=
  match scanNext buf with
  | none => (.eof, [])
  | some (l, r) =>
    match parseMessage l with
    | some m => (.msg m, r)
    | none => (.decodeErr, r)

/-! ## Client control loop (`Manager.controlLoop`, cWrapper) -/

/-- Observable state of one client control-stream session: the
peer-swapping endpoint, the migrate-seen latch (`latchSet`), the number of
times `close(migrateSeen)` actually ran (`closeCount`, guarded by
`sync.Once`), and the messages written back on the control stream. -/
structure CtrlState where
  pc : SwappableUDPConn
  latchSet : Bool
  closeCount : Nat
  sent : List Message
deriving DecidableEq, Repr

/-- The `Ack` message the loop writes for a migrate with identifier `i`. -/
def ackMsg (i : List Char) : Message :=
  { zeroMessage with type := TypeAck, ackID := i }

/-- One iteration of `Manager.controlLoop` (cWrapper/dial.go) on a decoded
message: non-migrate messages are skipped; on a migrate the loop formats
`newAddr:newPort`, resolves it (`resolve` is the `net.ResolveUDPAddr`
oracle) and on success calls `SetPeer`, then fires the migrate-seen latch
through `sync.Once`, then writes `Ack{ack_id = id}`. -/
def controlStep (resolve : List Char → Option UDPAddr) (st : CtrlState)
    (msg : Message) : CtrlState :=
  if msg.type ≠ TypeMigrate then st
  else
    let newTarget := msg.newAddr ++ ':' :: intToChars msg.newPort
    let pc :=
      match resolve newTarget with
      | some na => st.pc.SetPeer (some na)
      | none => st.pc
    { pc := pc,
      latchSet := true,
      closeCount := st.closeCount + (if st.latchSet then 0 else 1),
      sent := st.sent ++ [ackMsg msg.id] }

/-- The whole control loop over the lines delivered on the control stream:
`Next` returning end-of-stream or a decode failure makes the loop return;
a decoded message is handled by `controlStep` and the loop continues. -/
def controlRun (resolve : List Char → Option UDPAddr) (st : CtrlState) :
    List (List Char) → CtrlState
  | [] => st
  | line :: rest =>
    match parseMessage line with
    | none => st
    | some msg => controlRun resolve (controlStep resolve st msg) rest

/-! ## Concrete fixtures (used by witnesses and counterexamples) -/

def addrA : UDPAddr := { ip := [127, 0, 0, 1], port := 5242 }
def addrB : UDPAddr := { ip := [127, 0, 0, 1], port := 5243 }
def addrC : UDPAddr := { ip := [10, 0, 0, 2], port := 5243 }
def addrStray : UDPAddr := { ip := [127, 0, 0, 1], port := 9999 }

def k0 : Kernel := { nextSid := 1, binds := [] }
def kFail0 : Kernel := { nextSid := 1, binds := [false] }
def sock0 : Socket := { sid := 0, network := "udp".data, laddr := some addrA }

def m0 : MigratableUDP :=
  { network := "udp".data, laddr := some addrA, conn := some sock0, gen := 1 }

def sw0 : SwappableUDPConn :=
  { network := "udp".data, laddr := none, conn := some sock0, gen := 1,
    realPeer := some addrA, armedPeer := none, fakePeer := some addrA }

def swArmed : SwappableUDPConn := { sw0 with armedPeer := some addrB }

def st0 : CtrlState := { pc := sw0, latchSet := false, closeCount := 0, sent := [] }

def migMsg : Message :=
  { zeroMessage with
    type := TypeMigrate, id := "m-1".data,
    newAddr := "10.0.0.2".data, newPort := 5243 }

def resolve0 : List Char → Option UDPAddr :=
  fun s => if s = "10.0.0.2:5243".data then some addrC else none

/-! ## Theorems -/

/-- C1: `Rebind` binds the fresh socket to the stored network and local
address before touching any state; the published swap (install new socket,
bump generation) strictly precedes closing the old socket; on a bind
failure the result is `bindFailure` and the endpoint (old socket and
generation) is unchanged. -/
theorem C1_rebind_order (k : Kernel) (m : MigratableUDP) (old : Socket)
    (h : m.conn = some old) :
    (k.binds.headD true = false →
      (MigratableUDP.Rebind k m).2.1 = m ∧
      (MigratableUDP.Rebind k m).2.2.1 = .bindFailure ∧
      (MigratableUDP.Rebind k m).2.2.2 = []) ∧
    (k.binds.headD true = true →
      ∃ fresh : Socket,
        fresh.network = m.network ∧ fresh.laddr = m.laddr ∧
        (MigratableUDP.Rebind k m).2.1 =
          { m with conn := some fresh, gen := (m.gen + 1) % 2 ^ 64 } ∧
        (MigratableUDP.Rebind k m).2.2.1 = .ok ∧
        (MigratableUDP.Rebind k m).2.2.2 =
          [.bindNew fresh.sid,
            .publish old.sid fresh.sid ((m.gen + 1) % 2 ^ 64),
            .closeSock old.sid]) := by
  constructor
  · intro hb
    have hb' : k.binds.head?.getD true = false := by simpa using hb
    simp [MigratableUDP.Rebind, listenUDP, hb', h]
  · intro hb
    have hb' : k.binds.head?.getD true = true := by simpa using hb
    refine ⟨{ sid := k.nextSid, network := m.network, laddr := m.laddr },
      rfl, rfl, ?_, ?_, ?_⟩ <;>
      simp [MigratableUDP.Rebind, listenUDP, hb', h]

/-- Witness for `C1_rebind_order` at concrete inputs: a failing bind
leaves `m0` untouched, and a successful bind emits the
bind/publish/close-old events in order. -/
theorem C1_rebind_order_witness :
    ((MigratableUDP.Rebind kFail0 m0).2.1 = m0 ∧
      (MigratableUDP.Rebind kFail0 m0).2.2.1 = .bindFailure) ∧
    (MigratableUDP.Rebind k0 m0).2.2.1 = .ok := by
  refine ⟨⟨?_, ?_⟩, ?_⟩
  · exact ((C1_rebind_order kFail0 m0 sock0 rfl).1 (by decide)).1
  · exact ((C1_rebind_order kFail0 m0 sock0 rfl).1 (by decide)).2.1
  · obtain ⟨fresh, -, -, -, hok, -⟩ :=
      (C1_rebind_order k0 m0 sock0 rfl).2 (by decide)
    exact hok

/-- Closed form of `rebindIter` when every bind succeeds: after `N`
rebinds the generation is `(gen + N) % 2 ^ 64`, the intended local
address and network are unchanged, and the current socket is bound to
them. -/
theorem rebindIter_spec (N : Nat) (k : Kernel) (m : MigratableUDP) (c : Socket)
    (hb : k.binds = []) (hc : m.conn = some c) (hl : c.laddr = m.laddr)
    (hn : c.network = m.network) (hg : m.gen < 2 ^ 64) :
    (MigratableUDP.rebindIter N k m).2.gen = (m.gen + N) % 2 ^ 64 ∧
    (MigratableUDP.rebindIter N k m).2.laddr = m.laddr ∧
    (MigratableUDP.rebindIter N k m).2.network = m.network ∧
    (∃ c', (MigratableUDP.rebindIter N k m).2.conn = some c' ∧
      c'.laddr = m.laddr ∧ c'.network = m.network) := by
  induction N generalizing k m c with
  | zero =>
    refine ⟨?_, rfl, rfl, c, hc, hl, hn⟩
    simpa [MigratableUDP.rebindIter] using (Nat.mod_eq_of_lt hg).symm
  | succ n ih =>
    have hstep : MigratableUDP.Rebind k m =
        ({ nextSid := k.nextSid + 1, binds := [] },
          { network := m.network, laddr := m.laddr,
            conn := some { sid := k.nextSid, network := m.network, laddr := m.laddr },
            gen := (m.gen + 1) % 2 ^ 64 },
          .ok,
          [.bindNew k.nextSid,
            .publish c.sid k.nextSid ((m.gen + 1) % 2 ^ 64),
            .closeSock c.sid]) := by
      simp [MigratableUDP.Rebind, listenUDP, hb, hc]
    have hiter : MigratableUDP.rebindIter (n + 1) k m =
        MigratableUDP.rebindIter n (MigratableUDP.Rebind k m).1
          (MigratableUDP.Rebind k m).2.1 := rfl
    rw [hiter, hstep]
    have hmod : (m.gen + 1) % 2 ^ 64 < 2 ^ 64 := Nat.mod_lt _ (by positivity)
    obtain ⟨h1, h2, h3, h4⟩ :=
      ih { nextSid := k.nextSid + 1, binds := [] }
        { network := m.network, laddr := m.laddr,
          conn := some { sid := k.nextSid, network := m.network, laddr := m.laddr },
          gen := (m.gen + 1) % 2 ^ 64 }
        { sid := k.nextSid, network := m.network, laddr := m.laddr }
        rfl rfl rfl rfl hmod
    refine ⟨?_, h2, h3, h4⟩
    rw [h1]
    simp only [Nat.mod_add_mod]
    ring_nf

/-- C2 (amended): after `N` successful rebinds on a quiescent endpoint
whose socket is bound to the stored local address, the generation equals
`initial + N` and grows by exactly one per rebind — provided
`initial + N` stays below `2 ^ 64` (the counter is a Go `uint64` and
wraps) — and the endpoint stays bound to the same logical local
address. -/
theorem C2_generation_amended (N : Nat) (k : Kernel) (m : MigratableUDP)
    (c : Socket) (hb : k.binds = []) (hc : m.conn = some c)
    (hl : c.laddr = m.laddr) (hn : c.network = m.network)
    (hN : m.gen + N < 2 ^ 64) :
    (MigratableUDP.rebindIter N k m).2.gen = m.gen + N ∧
    (∀ i, i < N →
      (MigratableUDP.rebindIter (i + 1) k m).2.gen =
        (MigratableUDP.rebindIter i k m).2.gen + 1) ∧
    (MigratableUDP.rebindIter N k m).2.laddr = m.laddr ∧
    (∃ c', (MigratableUDP.rebindIter N k m).2.conn = some c' ∧
      c'.laddr = m.laddr) := by
  have hg : m.gen < 2 ^ 64 := by omega
  obtain ⟨h1, h2, h3, h4⟩ := rebindIter_spec N k m c hb hc hl hn hg
  refine ⟨by rw [h1]; exact Nat.mod_eq_of_lt hN, ?_, h2, ?_⟩
  · intro i hi
    have e1 := (rebindIter_spec (i + 1) k m c hb hc hl hn hg).1
    have e2 := (rebindIter_spec i k m c hb hc hl hn hg).1
    rw [e1, e2, Nat.mod_eq_of_lt (by omega), Nat.mod_eq_of_lt (by omega)]
    omega
  · obtain ⟨c', hcc, hcl, -⟩ := h4
    exact ⟨c', hcc, hcl⟩

/-- Witness for `C2_generation_amended`: three rebinds on the concrete
endpoint `m0` take the generation from 1 to 4. -/
theorem C2_generation_amended_witness :
    (MigratableUDP.rebindIter 3 k0 m0).2.gen = m0.gen + 3 :=
  (C2_generation_amended 3 k0 m0 sock0 rfl rfl rfl rfl (by norm_num [m0])).1

/-- Counterexample to C2 as stated: the generation counter is a Go
`uint64`, so after `2 ^ 64 - 1` successful rebinds of the concrete
endpoint `m0` (initial generation 1) it has wrapped to 0 and no longer
equals `initial + N`. -/
theorem C2_counterexample :
    (MigratableUDP.rebindIter (2 ^ 64 - 1) k0 m0).2.gen ≠
      m0.gen + (2 ^ 64 - 1) := by
  have h := (rebindIter_spec (2 ^ 64 - 1) k0 m0 sock0 rfl rfl rfl rfl
    (by norm_num [m0])).1
  rw [h]
  norm_num [m0]

/-- C4 (amended): `CutoverToArmedPeer` returns `false` and leaves the
state unchanged when no armed peer is present or when the armed peer
equals the (non-nil) real peer; otherwise it promotes the armed peer to
real peer and returns `true` — but it leaves the armed slot set rather
than clearing it. -/
theorem C4_cutover_amended (s : SwappableUDPConn) :
    (s.armedPeer = none → s.CutoverToArmedPeer = (s, false)) ∧
    (∀ ap, s.armedPeer = some ap →
      ((s.realPeer.isSome ∧ udpAddrEqual s.realPeer s.armedPeer) →
        s.CutoverToArmedPeer = (s, false)) ∧
      (¬(s.realPeer.isSome ∧ udpAddrEqual s.realPeer s.armedPeer) →
        s.CutoverToArmedPeer = ({ s with realPeer := some ap }, true) ∧
          s.CutoverToArmedPeer.1.armedPeer = some ap)) := by
  refine ⟨fun h => by simp [SwappableUDPConn.CutoverToArmedPeer, h],
    fun ap hap => ⟨fun hcond => ?_, fun hcond => ?_⟩⟩
  · rw [hap] at hcond
    simp only [SwappableUDPConn.CutoverToArmedPeer, hap]
    rw [if_pos hcond]
  · rw [hap] at hcond
    constructor
    · simp only [SwappableUDPConn.CutoverToArmedPeer, hap]
      rw [if_neg hcond]
    · simp only [SwappableUDPConn.CutoverToArmedPeer, hap]
      rw [if_neg hcond]

/-- Witness for `C4_cutover_amended`: with no armed peer, commit on `sw0`
returns `false` and changes nothing; with `addrB` armed over real peer
`addrA`, commit promotes and returns `true`. -/
theorem C4_cutover_amended_witness :
    sw0.CutoverToArmedPeer = (sw0, false) ∧
    swArmed.CutoverToArmedPeer =
      ({ swArmed with realPeer := some addrB }, true) :=
  ⟨(C4_cutover_amended sw0).1 rfl,
    (((C4_cutover_amended swArmed).2 addrB rfl).2 (by decide)).1⟩

/-- Counterexample to C4 as stated: on the concrete endpoint `swArmed`
(real peer `addrA`, armed peer `addrB`), commit promotes and returns
`true`, yet the armed slot is *not* cleared — it still holds `addrB`. -/
theorem C4_counterexample :
    swArmed.CutoverToArmedPeer.2 = true ∧
    swArmed.CutoverToArmedPeer.1.armedPeer = some addrB := by decide

/-- C5: arming `p` and then committing, with nothing in between, returns
`true` exactly when `p` differs from the pre-arm real peer under the
normalized comparison `udpAddrEqual` (in particular always when the real
peer was nil). -/
theorem C5_arm_then_commit (s : SwappableUDPConn) (p : UDPAddr) :
    ((s.ArmPeer (some p)).CutoverToArmedPeer).2 = true ↔
      udpAddrEqual s.realPeer (some p) = false := by
  cases hr : s.realPeer with
  | none =>
    simp [SwappableUDPConn.ArmPeer, SwappableUDPConn.CutoverToArmedPeer, hr,
      udpAddrEqual]
  | some r =>
    by_cases he : udpAddrEqual (some r) (some p) = true
    · simp [SwappableUDPConn.ArmPeer, SwappableUDPConn.CutoverToArmedPeer,
        hr, he]
    · have he' : udpAddrEqual (some r) (some p) = false := by
        revert he
        cases udpAddrEqual (some r) (some p) <;> simp
      simp [SwappableUDPConn.ArmPeer, SwappableUDPConn.CutoverToArmedPeer,
        hr, he']

/-- Witness for `C5_arm_then_commit`: arming `addrB` over real peer
`addrA` and committing returns `true`. -/
theorem C5_arm_then_commit_witness :
    ((sw0.ArmPeer (some addrB)).CutoverToArmedPeer).2 = true :=
  (C5_arm_then_commit sw0 addrB).mpr (by decide)

/-- C9 (amended): once the endpoint is closed (`conn = nil`), `ReadFrom`
and `WriteTo` fail with the "udp conn is nil" error, the deadline setters
dereference the nil socket (a crash, modelled `none`, not an error
return), and a repeated `Close` is a safe no-op that returns a *nil*
error rather than the terminal error. -/
theorem C9_after_close_amended (m : MigratableUDP) (h : m.conn = none) :
    (∀ evs, m.ReadFrom evs = .errConnNil) ∧
    (∀ ks, m.WriteTo ks = .errConnNil) ∧
    m.SetDeadline = none ∧
    m.Close = (m, none) := by
  refine ⟨fun evs => ?_, fun ks => ?_, ?_, ?_⟩ <;>
    simp [MigratableUDP.ReadFrom, MigratableUDP.WriteTo,
      MigratableUDP.SetDeadline, MigratableUDP.Close, h]

/-- Witness for `C9_after_close_amended` on the concrete closed endpoint
obtained from `m0`. -/
theorem C9_after_close_amended_witness :
    (MigratableUDP.Close m0).1.conn = none ∧
    MigratableUDP.SetDeadline (MigratableUDP.Close m0).1 = none :=
  ⟨rfl, (C9_after_close_amended (MigratableUDP.Close m0).1 rfl).2.2.1⟩

/-- Counterexample to C9 as stated: on the closed endpoint obtained from
`m0`, a repeated `Close` returns a nil error (success, not the terminal
error) and `SetDeadline` produces no error value at all (nil-pointer
dereference). -/
theorem C9_counterexample :
    (MigratableUDP.Close (MigratableUDP.Close m0).1).2 = none ∧
    MigratableUDP.SetDeadline (MigratableUDP.Close m0).1 = none := by decide

/-- Every successful return of the receive loop reports the fake peer as
source, whenever the fake peer is set. -/
theorem readFromLoop_ok_addr (s : SwappableUDPConn) (fp : UDPAddr)
    (hf : s.fakePeer = some fp) :
    ∀ evs n a, s.readFromLoop evs = .ok n a → a = some fp := by
  intro evs
  induction evs with
  | nil =>
    intro n a h
    simp [SwappableUDPConn.readFromLoop] at h
  | cons e rest ih =>
    intro n a h
    cases e with
    | pkt n' src =>
      rw [SwappableUDPConn.readFromLoop] at h
      split at h
      · exact ih n a h
      · rw [hf] at h
        cases h
        rfl
    | ioErr b =>
      simp [SwappableUDPConn.readFromLoop] at h

/-- C6: on an endpoint with a fake (logical) peer and a real peer set,
every `ReadFrom` that returns a datagram reports the fake peer as its
source, whatever the kernel source was; and a datagram whose kernel
source differs from the real peer under `udpAddrEqual` is silently
dropped — the call continues exactly as if that datagram had never
arrived. -/
theorem C6_recv_reports_logical_peer (s : SwappableUDPConn) (fp rp : UDPAddr)
    (hf : s.fakePeer = some fp) (hr : s.realPeer = some rp) :
    (∀ evs n a, s.ReadFrom evs = .ok n a → a = some fp) ∧
    (∀ n f rest, udpAddrEqual (some rp) (some f) = false →
      s.ReadFrom (.pkt n (some f) :: rest) = s.ReadFrom rest) := by
  constructor
  · intro evs n a h
    cases hc : s.conn with
    | none => simp [SwappableUDPConn.ReadFrom, hc] at h
    | some c =>
      rw [SwappableUDPConn.ReadFrom, hc] at h
      exact readFromLoop_ok_addr s fp hf evs n a h
  · intro n f rest hne
    cases hc : s.conn with
    | none => simp [SwappableUDPConn.ReadFrom, hc]
    | some c =>
      simp only [SwappableUDPConn.ReadFrom, hc]
      rw [SwappableUDPConn.readFromLoop, if_pos]
      refine ⟨by simp [SwappableUDPConn.getPeer, hr], by simp, ?_⟩
      simp [SwappableUDPConn.getPeer, hr, hne]

/-- Witness for `C6_recv_reports_logical_peer` on `sw0`: a stray datagram
from `addrStray` is dropped, and the accepted datagram from `addrA` is
reported as coming from the logical peer. -/
theorem C6_recv_reports_logical_peer_witness :
    sw0.ReadFrom [NetEvent.pkt 3 (some addrStray), NetEvent.pkt 4 (some addrA)] =
      sw0.ReadFrom [NetEvent.pkt 4 (some addrA)] ∧
    (∀ n a,
      sw0.ReadFrom [NetEvent.pkt 4 (some addrA)] = .ok n a → a = some addrA) :=
  ⟨(C6_recv_reports_logical_peer sw0 addrA addrA rfl rfl).2 3 addrStray
      [NetEvent.pkt 4 (some addrA)] (by decide),
    fun n a h =>
      (C6_recv_reports_logical_peer sw0 addrA addrA rfl rfl).1
        [NetEvent.pkt 4 (some addrA)] n a h⟩

/-- C10 (implicit): the stray-datagram filter only applies when the real
peer is set — with a nil real peer the next datagram is returned whatever
its source — and with a nil fake peer an accepted datagram is reported
with the true kernel source. -/
theorem C10_nil_peer_cases (s : SwappableUDPConn) (n : Nat)
    (src : Option UDPAddr) (rest : List NetEvent) (c : Socket)
    (hc : s.conn = some c) :
    (s.realPeer = none →
      s.ReadFrom (.pkt n src :: rest) =
        (match s.fakePeer with
          | some fp => .ok n (some fp)
          | none => .ok n src)) ∧
    (s.fakePeer = none →
      (s.realPeer = none ∨ src = none ∨ udpAddrEqual s.realPeer src = true) →
      s.ReadFrom (.pkt n src :: rest) = .ok n src) := by
  constructor
  · intro hrn
    simp only [SwappableUDPConn.ReadFrom, hc]
    rw [SwappableUDPConn.readFromLoop, if_neg]
    simp [SwappableUDPConn.getPeer, hrn]
  · intro hfn hacc
    simp only [SwappableUDPConn.ReadFrom, hc]
    rw [SwappableUDPConn.readFromLoop, if_neg, hfn]
    intro hdrop
    obtain ⟨h1, h2, h3⟩ := hdrop
    rcases hacc with h | h | h
    · rw [SwappableUDPConn.getPeer, h] at h1
      simp at h1
    · rw [h] at h2
      simp at h2
    · rw [SwappableUDPConn.getPeer] at h3
      exact h3 h

/-- Witness for `C10_nil_peer_cases`: with a nil real peer the stray
datagram is returned (masked by the fake peer), and with a nil fake peer
the true source is reported. -/
theorem C10_nil_peer_cases_witness :
    SwappableUDPConn.ReadFrom { sw0 with realPeer := none }
        [NetEvent.pkt 7 (some addrStray)] = .ok 7 (some addrA) ∧
    SwappableUDPConn.ReadFrom { sw0 with fakePeer := none }
        [NetEvent.pkt 7 (some addrA)] = .ok 7 (some addrA) := by
  constructor
  · have h := (C10_nil_peer_cases { sw0 with realPeer := none } 7
      (some addrStray) [] sock0 rfl).1 rfl
    simpa [sw0] using h
  · have h := (C10_nil_peer_cases { sw0 with fakePeer := none } 7
      (some addrA) [] sock0 rfl).2 rfl (by right; right; decide)
    simpa using h

/-- `controlStep` preserves the once-only firing invariant of the
migrate-seen latch. -/
theorem controlStep_inv (resolve : List Char → Option UDPAddr)
    (st : CtrlState) (msg : Message)
    (h1 : st.closeCount ≤ 1) (h2 : st.latchSet = false → st.closeCount = 0) :
    (controlStep resolve st msg).closeCount ≤ 1 ∧
    ((controlStep resolve st msg).latchSet = false →
      (controlStep resolve st msg).closeCount = 0) := by
  unfold controlStep
  by_cases ht : msg.type ≠ TypeMigrate
  · simp only [if_pos ht]
    exact ⟨h1, h2⟩
  · simp only [if_neg ht]
    cases hl : st.latchSet with
    | false => simp [hl, h2 hl]
    | true => simp [hl, h1]

/-- Over any sequence of control-stream lines, a session whose latch
starts unset fires `close(migrateSeen)` at most once. -/
theorem controlRun_once (resolve : List Char → Option UDPAddr) :
    ∀ (lines : List (List Char)) (st : CtrlState), st.closeCount ≤ 1 →
      (st.latchSet = false → st.closeCount = 0) →
      (controlRun resolve st lines).closeCount ≤ 1 := by
  intro lines
  induction lines with
  | nil => intro st h1 _; exact h1
  | cons line rest ih =>
    intro st h1 h2
    cases hp : parseMessage line with
    | none => simpa [controlRun, hp] using h1
    | some msg =>
      simp only [controlRun, hp]
      obtain ⟨g1, g2⟩ := controlStep_inv resolve st msg h1 h2
      exact ih _ g1 g2

/-- C3 (amended): on a decoded `Migrate` message the control loop resolves
`newAddr:newPort` and — on success — calls `SetPeer`, immediately
replacing the real peer and leaving the armed slot untouched (it does
*not* call `ArmPeer`); it fires the migrate-seen latch through
`sync.Once` and appends `Ack{ack_id = id}` to the control stream.  If
resolution fails, the peer is left unchanged but the latch and ack still
happen.  Over a whole session the latch close runs at most once even if
several `Migrate` messages arrive. -/
theorem C3_migrate_step_amended (resolve : List Char → Option UDPAddr)
    (st : CtrlState) (msg : Message) (hm : msg.type = TypeMigrate) :
    (∀ na, resolve (msg.newAddr ++ ':' :: intToChars msg.newPort) = some na →
      controlStep resolve st msg =
        { pc := st.pc.SetPeer (some na), latchSet := true,
          closeCount := st.closeCount + (if st.latchSet then 0 else 1),
          sent := st.sent ++ [ackMsg msg.id] } ∧
      (controlStep resolve st msg).pc.armedPeer = st.pc.armedPeer) ∧
    (resolve (msg.newAddr ++ ':' :: intToChars msg.newPort) = none →
      controlStep resolve st msg =
        { pc := st.pc, latchSet := true,
          closeCount := st.closeCount + (if st.latchSet then 0 else 1),
          sent := st.sent ++ [ackMsg msg.id] }) ∧
    (∀ (lines : List (List Char)) (st' : CtrlState),
      st'.closeCount = 0 → st'.latchSet = false →
      (controlRun resolve st' lines).closeCount ≤ 1) := by
  refine ⟨fun na hres => ⟨?_, ?_⟩, fun hres => ?_, fun lines st' hcc hl =>
    controlRun_once resolve lines st' (by omega) (fun _ => hcc)⟩
  · simp [controlStep, hm, hres]
  · simp [controlStep, hm, hres, SwappableUDPConn.SetPeer]
  · simp [controlStep, hm, hres]

/-- Witness for `C3_migrate_step_amended` on the concrete migrate message
`migMsg` with resolver `resolve0`. -/
theorem C3_migrate_step_amended_witness :
    controlStep resolve0 st0 migMsg =
      { pc := st0.pc.SetPeer (some addrC), latchSet := true,
        closeCount := 1, sent := [ackMsg "m-1".data] } := by
  have h := ((C3_migrate_step_amended resolve0 st0 migMsg (by decide)).1
    addrC (by decide)).1
  simpa [st0] using h

/-- Counterexample to C3 as stated: on the concrete session state `st0`
(armed slot empty, real peer `addrA`), handling `Migrate` to
`10.0.0.2:5243` leaves the armed slot empty — `arm(new_peer)` is never
called — and immediately replaces the real peer instead of leaving it
untouched. -/
theorem C3_counterexample :
    (controlStep resolve0 st0 migMsg).pc.armedPeer = none ∧
    (controlStep resolve0 st0 migMsg).pc.realPeer = some addrC ∧
    st0.pc.realPeer = some addrA := by decide

/-- C8 (amended): a malformed control line surfaces the "bad control
message" decode failure from `LineReader.Next`, and the control loop then
*returns*, terminating the session — subsequent lines on the stream are
not processed. -/
theorem C8_decode_failure_amended (bad : List Char)
    (hbad : parseMessage bad = none) :
    (∀ buf rest, scanNext buf = some (bad, rest) →
      (lineNext buf).1 = .decodeErr) ∧
    (∀ (resolve : List Char → Option UDPAddr) (st : CtrlState)
      (rest : List (List Char)), controlRun resolve st (bad :: rest) = st) := by
  constructor
  · intro buf rest h
    simp [lineNext, h, hbad]
  · intro resolve st rest
    simp [controlRun, hbad]

/-- Witness for `C8_decode_failure_amended` on the malformed line
`"\x7bbad"`. -/
theorem C8_decode_failure_amended_witness :
    (lineNext "\x7bbad\n".data).1 = .decodeErr ∧
    controlRun resolve0 st0 ["\x7bbad".data, marshalMessage migMsg] = st0 :=
  ⟨(C8_decode_failure_amended "\x7bbad".data (by decide)).1
      "\x7bbad\n".data [] (by decide),
    (C8_decode_failure_amended "\x7bbad".data (by decide)).2 resolve0 st0
      [marshalMessage migMsg]⟩

/-- Counterexample to C8 as stated: after the malformed line `"\x7bbad"`
the session does *not* continue — the following well-formed `Migrate`
line is never processed: no ack is sent and the latch never fires. -/
theorem C8_counterexample :
    (controlRun resolve0 st0 ["\x7bbad".data, marshalMessage migMsg]).sent = [] ∧
    (controlRun resolve0 st0 ["\x7bbad".data, marshalMessage migMsg]).latchSet =
      false := by decide

/-! ### Lemmas for the codec round trip (C7) -/

/-- `hexDigitChar` is correctly decoded by `hexVal` on values below 16. -/
theorem hexVal_hexDigitChar (d : Nat) (hd : d < 16) :
    hexVal (hexDigitChar d) = some d := by
  interval_cases d <;> decide

/-- `hexDigitChar` of a decimal digit is an ASCII digit character. -/
theorem isDigitC_hexDigitChar (d : Nat) (hd : d < 10) :
    isDigitC (hexDigitChar d) = true := by
  interval_cases d <;> decide

/-- Code of `hexDigitChar` on a decimal digit. -/
theorem hexDigitChar_toNat (d : Nat) (hd : d < 10) :
    (hexDigitChar d).toNat = 48 + d := by
  interval_cases d <;> decide

/-- `hexDigitChar` never yields a newline. -/
theorem hexDigitChar_ne_newline (d : Nat) : hexDigitChar d ≠ '\n' := by
  unfold hexDigitChar
  split <;> decide

/-- Decoding inverts the single-character escaping. -/
theorem parseStrBody_escape (s : List Char) (rest : List Char) :
    parseStrBody (escapeString s ++ '"' :: rest) = some (s, rest) := by
  induction s with
  | nil =>
    show parseStrBody ('"' :: rest) = _
    rw [parseStrBody.eq_def]
    simp
  | cons c cs ih =>
    show parseStrBody (escChar c ++ escapeString cs ++ '"' :: rest) = _
    unfold escChar
    split_ifs with h1 h2 h3 h4 h5 h6 h7
    · subst h1
      simp only [List.cons_append, List.nil_append]
      rw [parseStrBody.eq_def]
      simp [unescChar, ih]
    · subst h2
      simp only [List.cons_append, List.nil_append]
      rw [parseStrBody.eq_def]
      simp [unescChar, ih]
    · subst h3
      simp only [List.cons_append, List.nil_append]
      rw [parseStrBody.eq_def]
      simp [unescChar, ih]
    · subst h4
      simp only [List.cons_append, List.nil_append]
      rw [parseStrBody.eq_def]
      simp [unescChar, ih]
    · subst h5
      simp only [List.cons_append, List.nil_append]
      rw [parseStrBody.eq_def]
      simp [unescChar, ih]
    · -- the backslash-u-00XX escapes
      have ht : c.toNat < 256 := by
        rcases h6 with h | h | h | h
        · omega
        · subst h; decide
        · subst h; decide
        · subst h; decide
      have hd1 : c.toNat / 16 < 16 := by omega
      have hd2 : c.toNat % 16 < 16 := Nat.mod_lt _ (by omega)
      have e0 : hexVal '0' = some 0 := by decide
      simp only [List.cons_append, List.nil_append]
      rw [parseStrBody.eq_def]
      simp [e0, hexVal_hexDigitChar _ hd1, hexVal_hexDigitChar _ hd2, ih]
      rw [show 16 * (c.toNat / 16) + c.toNat % 16 = c.toNat by omega,
        Char.ofNat_toNat]
    · -- the backslash-u-202X escapes
      have e2 : hexVal '2' = some 2 := by decide
      have e0 : hexVal '0' = some 0 := by decide
      have hd2 : c.toNat % 16 < 16 := Nat.mod_lt _ (by omega)
      simp only [List.cons_append, List.nil_append]
      rw [parseStrBody.eq_def]
      simp [e0, e2, hexVal_hexDigitChar _ hd2, ih]
      rw [show 8224 + c.toNat % 16 = c.toNat by rcases h7 with h | h <;> omega,
        Char.ofNat_toNat]
    · -- verbatim character
      simp only [List.cons_append, List.nil_append]
      rw [parseStrBody.eq_def]
      simp [h1, h2, ih]

/-- `escChar` never emits a newline. -/
theorem escChar_no_newline (c : Char) : '\n' ∉ escChar c := by
  unfold escChar
  split_ifs with h1 h2 h3 h4 h5 h6 h7
  · decide
  · decide
  · decide
  · decide
  · decide
  · intro hmem
    simp [List.mem_cons] at hmem
    rcases hmem with h | h
    · exact hexDigitChar_ne_newline _ h.symm
    · exact hexDigitChar_ne_newline _ h.symm
  · intro hmem
    simp [List.mem_cons] at hmem
    exact hexDigitChar_ne_newline _ hmem.symm
  · intro hmem
    simp [List.mem_cons] at hmem
    exact h3 hmem.symm

/-- `escapeString` never emits a newline. -/
theorem escapeString_no_newline (s : List Char) : '\n' ∉ escapeString s := by
  induction s with
  | nil => simp [escapeString]
  | cons c cs ih =>
    rw [escapeString]
    intro hmem
    rcases List.mem_append.mp hmem with h | h
    · exact escChar_no_newline c h
    · exact ih h

/-- `natToCharsCore` never emits a newline. -/
theorem natToCharsCore_no_newline :
    ∀ (fuel n : Nat) (acc : List Char), '\n' ∉ acc →
      '\n' ∉ natToCharsCore fuel n acc := by
  intro fuel
  induction fuel with
  | zero => intro n acc h; exact h
  | succ f ih =>
    intro n acc h
    rw [natToCharsCore]
    split
    · intro hmem
      rcases List.mem_cons.mp hmem with hh | hh
      · exact hexDigitChar_ne_newline _ hh.symm
      · exact h hh
    · refine ih _ _ ?_
      intro hmem
      rcases List.mem_cons.mp hmem with hh | hh
      · exact hexDigitChar_ne_newline _ hh.symm
      · exact h hh

/-- `intToChars` never emits a newline. -/
theorem intToChars_no_newline (i : Int) : '\n' ∉ intToChars i := by
  unfold intToChars natToChars
  split_ifs
  · intro hmem
    rcases List.mem_cons.mp hmem with hh | hh
    · exact absurd hh (by decide)
    · exact natToCharsCore_no_newline _ _ _ (by simp) hh
  · exact natToCharsCore_no_newline _ _ _ (by simp)

/-- `renderJVal` never emits a newline. -/
theorem renderJVal_no_newline (v : JVal) : '\n' ∉ renderJVal v := by
  cases v with
  | jstr s =>
    intro hmem
    rcases List.mem_cons.mp hmem with hh | hh
    · exact absurd hh (by decide)
    rcases List.mem_append.mp hh with hh2 | hh2
    · exact escapeString_no_newline s hh2
    · simp at hh2
  | jint n => exact intToChars_no_newline n

/-- `renderPair` never emits a newline. -/
theorem renderPair_no_newline (p : List Char × JVal) : '\n' ∉ renderPair p := by
  unfold renderPair
  intro hmem
  rcases List.mem_cons.mp hmem with hh | hh
  · exact absurd hh (by decide)
  rcases List.mem_append.mp hh with hh2 | hh2
  · exact escapeString_no_newline _ hh2
  rcases List.mem_cons.mp hh2 with hh3 | hh3
  · exact absurd hh3 (by decide)
  rcases List.mem_cons.mp hh3 with hh4 | hh4
  · exact absurd hh4 (by decide)
  · exact renderJVal_no_newline _ hh4

/-- `renderPairs` never emits a newline. -/
theorem renderPairs_no_newline : ∀ fs, '\n' ∉ renderPairs fs
  | [] => by simp [renderPairs]
  | [p] => by
    rw [renderPairs]
    exact renderPair_no_newline p
  | p :: q :: ps => by
    rw [renderPairs]
    · intro hmem
      rcases List.mem_append.mp hmem with hh | hh
      · exact renderPair_no_newline p hh
      rcases List.mem_cons.mp hh with hh2 | hh2
      · exact absurd hh2 (by decide)
      · exact renderPairs_no_newline (q :: ps) hh2
    · simp

/-- `marshalMessage` emits no newline: a message is one line. -/
theorem marshalMessage_no_newline (m : Message) :
    '\n' ∉ marshalMessage m := by
  unfold marshalMessage
  intro hmem
  rcases List.mem_cons.mp hmem with hh | hh
  · exact absurd hh (by decide)
  rcases List.mem_append.mp hh with hh2 | hh2
  · exact renderPairs_no_newline _ hh2
  · simp at hh2

/-- `splitFirstLine` recovers a newline-free prefix. -/
theorem splitFirstLine_append (l : List Char) (rest : List Char)
    (h : '\n' ∉ l) :
    splitFirstLine (l ++ '\n' :: rest) = some (l, rest) := by
  induction l with
  | nil => rfl
  | cons c cs ih =>
    have hc : ¬c = '\n' := fun hh => h (by simp [hh])
    rw [List.cons_append, splitFirstLine.eq_def]
    split
    · simp_all
    · simp_all
    · rename_i heq
      injection heq with heq1 heq2
      subst heq1
      rw [← heq2, ih (fun hm => h (List.mem_cons_of_mem _ hm))]

/-- `dropCR` is the identity on a line ending in anything but CR. -/
theorem dropCR_last (l : List Char) (c : Char) (hc : ¬c = '\r') :
    dropCR (l ++ [c]) = l ++ [c] := by
  unfold dropCR
  rw [List.getLast?_concat]
  simp [hc]

/-- Scanning a written line yields exactly the marshalled message and
leaves an empty buffer. -/
theorem scanNext_writeLine (m : Message) :
    scanNext (WriteLine m) = some (marshalMessage m, []) := by
  unfold WriteLine scanNext
  rw [show marshalMessage m ++ ['\n'] = marshalMessage m ++ '\n' :: [] from rfl,
    splitFirstLine_append _ _ (marshalMessage_no_newline m)]
  have hm : marshalMessage m = ('{' :: renderPairs (fieldsOf m)) ++ ['}'] := by
    unfold marshalMessage
    simp
  rw [hm]
  show some (dropCR (('{' :: renderPairs (fieldsOf m)) ++ ['}']), []) = _
  rw [dropCR_last _ _ (by decide)]

/-- The accumulator of `natToCharsCore` is a plain suffix. -/
theorem natToCharsCore_shift (fuel : Nat) :
    ∀ (n : Nat) (acc extra : List Char),
      natToCharsCore fuel n acc ++ extra = natToCharsCore fuel n (acc ++ extra) := by
  induction fuel with
  | zero => intro n acc extra; rfl
  | succ f ih =>
    intro n acc extra
    by_cases h : n < 10
    · simp [natToCharsCore, h]
    · simp [natToCharsCore, h, ih]

/-- Consuming the rendered digits of `n` multiplies the accumulator by a
positive constant and adds `n`. -/
theorem parseDigits_natToCharsCore (fuel : Nat) :
    ∀ n, n < fuel →
      ∃ K, 0 < K ∧ ∀ (pacc : Nat) (tail : List Char),
        parseDigits pacc (natToCharsCore fuel n tail) =
          parseDigits (pacc * K + n) tail := by
  induction fuel with
  | zero => intro n h; exact absurd h (Nat.not_lt_zero n)
  | succ f ih =>
    intro n hn
    by_cases h : n < 10
    · refine ⟨10, by omega, fun pacc tail => ?_⟩
      rw [natToCharsCore, if_pos h, parseDigits]
      rw [if_pos (isDigitC_hexDigitChar n h), hexDigitChar_toNat n h]
      congr 1
      omega
    · have hd : n / 10 < f := by
        have h2 : n / 10 < n := Nat.div_lt_self (by omega) (by omega)
        omega
      obtain ⟨K, hK, hKall⟩ := ih (n / 10) hd
      refine ⟨10 * K, by omega, fun pacc tail => ?_⟩
      rw [natToCharsCore, if_neg h, hKall pacc (hexDigitChar (n % 10) :: tail)]
      have hm : n % 10 < 10 := Nat.mod_lt _ (by omega)
      rw [parseDigits, if_pos (isDigitC_hexDigitChar _ hm), hexDigitChar_toNat _ hm]
      have harg : pacc * (10 * K) = 10 * (pacc * K) := by ring
      rw [harg]
      congr 1
      omega

/-- `parseDigits` stops when the input does not start with a digit. -/
theorem parseDigits_stop (acc : Nat) (rest : List Char)
    (h : ∀ c cs, rest = c :: cs → isDigitC c = false) :
    parseDigits acc rest = (acc, rest) := by
  cases rest with
  | nil => rfl
  | cons c cs => simp [parseDigits, h c cs rfl]

/-- The decimal rendering starts with a digit character. -/
theorem natToCharsCore_head (fuel : Nat) :
    ∀ (n : Nat) (tail : List Char), n < fuel →
      ∃ c cs, natToCharsCore fuel n tail = c :: cs ∧ isDigitC c = true := by
  induction fuel with
  | zero => intro n tail h; exact absurd h (Nat.not_lt_zero n)
  | succ f ih =>
    intro n tail hn
    by_cases h : n < 10
    · exact ⟨hexDigitChar n, tail, by rw [natToCharsCore, if_pos h],
        isDigitC_hexDigitChar n h⟩
    · have hd : n / 10 < f := by
        have h2 : n / 10 < n := Nat.div_lt_self (by omega) (by omega)
        omega
      obtain ⟨c, cs, hc, hdig⟩ := ih (n / 10) (hexDigitChar (n % 10) :: tail) hd
      exact ⟨c, cs, by rw [natToCharsCore, if_neg h, hc], hdig⟩

/-- A digit character is not a double quote. -/
theorem isDigitC_ne_quote (c : Char) (h : isDigitC c = true) : c ≠ '"' := by
  intro hh
  subst hh
  exact absurd h (by decide)

/-- A digit character is not a minus sign. -/
theorem isDigitC_ne_minus (c : Char) (h : isDigitC c = true) : c ≠ '-' := by
  intro hh
  subst hh
  exact absurd h (by decide)

/-- `parseJVal` on a digit-headed input is the integer parse. -/
theorem parseJVal_digit (c : Char) (l : List Char) (hd : isDigitC c = true) :
    parseJVal (c :: l) =
      some (.jint ((parseDigits 0 (c :: l)).1 : Int),
        (parseDigits 0 (c :: l)).2) := by
  have h1 : c ≠ '"' := isDigitC_ne_quote c hd
  have h2 : c ≠ '-' := isDigitC_ne_minus c hd
  rw [parseJVal.eq_def]
  split
  · simp_all
  · simp_all
  · simp_all
  · rename_i heq
    injection heq with heq1 heq2
    subst heq1
    subst heq2
    simp [hd]

/-- Parsing the decimal rendering of an integer recovers it, provided the
following character is not a digit. -/
theorem parseJVal_intToChars (i : Int) (x : Char) (r : List Char)
    (hx : isDigitC x = false) :
    parseJVal (intToChars i ++ x :: r) = some (.jint i, x :: r) := by
  have hstop : ∀ c cs, (x :: r) = c :: cs → isDigitC c = false := by
    intro c cs hh
    injection hh with hh1 hh2
    subst hh1
    exact hx
  by_cases hi : i < 0
  · rw [intToChars, if_pos hi]
    obtain ⟨K, hK, hKall⟩ :=
      parseDigits_natToCharsCore ((-i).toNat + 1) (-i).toNat
        (Nat.lt_succ_self _)
    have hform : natToChars (-i).toNat ++ x :: r =
        natToCharsCore ((-i).toNat + 1) (-i).toNat (x :: r) := by
      rw [natToChars, natToCharsCore_shift]
      simp
    obtain ⟨c, cs, hc, hdig⟩ :=
      natToCharsCore_head ((-i).toNat + 1) (-i).toNat (x :: r)
        (Nat.lt_succ_self _)
    rw [List.cons_append, hform, hc, parseJVal.eq_def]
    split
    · simp_all
    · simp_all
    · rename_i heq
      injection heq with heq1 heq2
      subst heq2
      simp only [hdig, if_pos]
      rw [← hc, hKall 0 (x :: r), Nat.zero_mul, Nat.zero_add,
        parseDigits_stop _ _ hstop]
      have hval : (-((-i).toNat : Int)) = i := by omega
      rw [hval]
    · rename_i hq hm heq
      injection heq with e1 e2
      exact absurd e1.symm hm
  · rw [intToChars, if_neg hi]
    obtain ⟨K, hK, hKall⟩ :=
      parseDigits_natToCharsCore (i.toNat + 1) i.toNat (Nat.lt_succ_self _)
    have hform : natToChars i.toNat ++ x :: r =
        natToCharsCore (i.toNat + 1) i.toNat (x :: r) := by
      rw [natToChars, natToCharsCore_shift]
      simp
    obtain ⟨c, cs, hc, hdig⟩ :=
      natToCharsCore_head (i.toNat + 1) i.toNat (x :: r) (Nat.lt_succ_self _)
    rw [hform, hc, parseJVal_digit c cs hdig, ← hc, hKall 0 (x :: r),
      Nat.zero_mul, Nat.zero_add, parseDigits_stop _ _ hstop]
    have hval : ((i.toNat : Int)) = i := by omega
    simp [hval]

/-- Parsing a rendered JSON value recovers it, provided the following
character is not a digit. -/
theorem parseJVal_render (v : JVal) (x : Char) (r : List Char)
    (hx : isDigitC x = false) :
    parseJVal (renderJVal v ++ x :: r) = some (v, x :: r) := by
  cases v with
  | jstr s =>
    show parseJVal (('"' :: (escapeString s ++ ['"'])) ++ x :: r) = _
    rw [List.cons_append, List.append_assoc]
    rw [show ['"'] ++ x :: r = '"' :: x :: r from rfl, parseJVal.eq_def]
    simp [parseStrBody_escape]
  | jint n => exact parseJVal_intToChars n x r hx

/-- `assign` at the key `type`. -/
theorem assign_type (m : Message) (s : List Char) :
    assign m ['t', 'y', 'p', 'e'] (.jstr s) = some { m with type := s } := by
  rw [assign, if_pos (by decide)]

/-- `assign` at the key `id`. -/
theorem assign_id (m : Message) (s : List Char) :
    assign m ['i', 'd'] (.jstr s) = some { m with id := s } := by
  rw [assign, if_neg (by decide), if_pos (by decide)]

/-- `assign` at the key `client_id`. -/
theorem assign_clientID (m : Message) (s : List Char) :
    assign m ['c', 'l', 'i', 'e', 'n', 't', '_', 'i', 'd'] (.jstr s) =
      some { m with clientID := s } := by
  rw [assign, if_neg (by decide), if_neg (by decide), if_pos (by decide)]

/-- `assign` at the key `new_addr`. -/
theorem assign_newAddr (m : Message) (s : List Char) :
    assign m ['n', 'e', 'w', '_', 'a', 'd', 'd', 'r'] (.jstr s) =
      some { m with newAddr := s } := by
  rw [assign, if_neg (by decide), if_neg (by decide), if_neg (by decide),
    if_pos (by decide)]

/-- `assign` at the key `new_port`. -/
theorem assign_newPort (m : Message) (n : Int) :
    assign m ['n', 'e', 'w', '_', 'p', 'o', 'r', 't'] (.jint n) =
      some { m with newPort := n } := by
  rw [assign, if_neg (by decide), if_neg (by decide), if_neg (by decide),
    if_neg (by decide), if_pos (by decide)]

/-- `assign` at the key `ack_id`. -/
theorem assign_ackID (m : Message) (s : List Char) :
    assign m ['a', 'c', 'k', '_', 'i', 'd'] (.jstr s) =
      some { m with ackID := s } := by
  rw [assign, if_neg (by decide), if_neg (by decide), if_neg (by decide),
    if_neg (by decide), if_neg (by decide), if_pos (by decide)]

/-- Replaying the marshalled fields over the zero message rebuilds the
original message. -/
theorem assignAll_fieldsOf (m : Message) :
    assignAll zeroMessage (fieldsOf m) = some m := by
  obtain ⟨t, i, ci, na, np, ai⟩ := m
  unfold fieldsOf
  split_ifs with h1 h2 h3 h4 h5 <;>
    simp_all [assignAll, assign_type, assign_id, assign_clientID,
      assign_newAddr, assign_newPort, assign_ackID, zeroMessage]

/-- Parsing the rendering of a non-empty pair list applies exactly the
assignments of those pairs. -/
theorem parsePairs_render (ps : List (List Char × JVal)) :
    ∀ (p : List Char × JVal) (fuel : Nat) (m mf : Message) (rest : List Char),
      ps.length < fuel →
      assignAll m (p :: ps) = some mf →
      parsePairs (fuel + 1) m (renderPairs (p :: ps) ++ '}' :: rest) =
        some (mf, rest) := by
  induction ps with
  | nil =>
    intro p fuel m mf rest hfuel hassign
    rw [assignAll] at hassign
    cases hasg : assign m p.1 p.2 with
    | none => rw [hasg] at hassign; cases hassign
    | some m' =>
      rw [hasg] at hassign
      have hmf : some m' = some mf := hassign
      injection hmf with hmf
      subst hmf
      rw [renderPairs, renderPair]
      simp only [List.cons_append, List.append_assoc, List.nil_append]
      rw [parsePairs.eq_def]
      simp [parseStrBody_escape, hasg, parseJVal_render p.2 '}' rest (by decide)]
  | cons q qs ih =>
    intro p fuel m mf rest hfuel hassign
    cases fuel with
    | zero => simp at hfuel
    | succ f =>
      rw [assignAll] at hassign
      cases hasg : assign m p.1 p.2 with
      | none => rw [hasg] at hassign; cases hassign
      | some m' =>
        rw [hasg] at hassign
        have hrec : assignAll m' (q :: qs) = some mf := hassign
        rw [show renderPairs (p :: q :: qs) =
          renderPair p ++ ',' :: renderPairs (q :: qs) from rfl, renderPair]
        simp only [List.cons_append, List.append_assoc, List.nil_append]
        rw [parsePairs.eq_def]
        simp [parseStrBody_escape, hasg,
          parseJVal_render p.2 ',' (renderPairs (q :: qs) ++ '}' :: rest)
            (by decide)]
        exact ih q f m' mf rest (by simpa using Nat.lt_of_succ_lt_succ hfuel)
          hrec

/-- Every rendered pair is at least one character long. -/
theorem renderPair_length_pos (p : List Char × JVal) :
    1 ≤ (renderPair p).length := by
  rw [renderPair]
  simp

/-- The rendering of a pair list is at least as long as the list. -/
theorem renderPairs_length_ge :
    ∀ fs : List (List Char × JVal), fs.length ≤ (renderPairs fs).length
  | [] => by simp [renderPairs]
  | [p] => by
    rw [renderPairs]
    simpa using renderPair_length_pos p
  | p :: q :: ps => by
    rw [renderPairs]
    · have h1 := renderPair_length_pos p
      have h2 := renderPairs_length_ge (q :: ps)
      simp only [List.length_append, List.length_cons] at *
      omega
    · simp

/-- The rendering of a non-empty pair list starts with a double quote. -/
theorem renderPairs_head (p : List Char × JVal)
    (ps : List (List Char × JVal)) :
    ∃ tail, renderPairs (p :: ps) = '"' :: tail := by
  cases ps with
  | nil => exact ⟨_, rfl⟩
  | cons q qs => exact ⟨_, rfl⟩

/-- Unmarshalling the marshalled form of any message recovers the message
exactly. -/
theorem parseMessage_marshal (m : Message) :
    parseMessage (marshalMessage m) = some m := by
  obtain ⟨ps, hps⟩ : ∃ ps,
      fieldsOf m = ("type".data, JVal.jstr m.type) :: ps := ⟨_, rfl⟩
  have hassign : assignAll zeroMessage (fieldsOf m) = some m :=
    assignAll_fieldsOf m
  rw [hps] at hassign
  obtain ⟨tail, htail⟩ := renderPairs_head ("type".data, JVal.jstr m.type) ps
  have hlen : ps.length < tail.length + 3 := by
    have hge := renderPairs_length_ge (fieldsOf m)
    rw [hps, htail] at hge
    simp only [List.length_cons] at hge
    omega
  rw [marshalMessage, hps, htail, parseMessage.eq_def]
  split
  · rename_i heq
    rw [List.cons_append] at heq
    injection heq with e1 e2
    injection e2 with e3 e4
    exact absurd e3 (by decide)
  · rename_i heq
    rw [List.cons_append] at heq
    injection heq with e1 e2
    subst e2
    have hfin := parsePairs_render ps ("type".data, JVal.jstr m.type)
      (tail.length + 3) zeroMessage m [] hlen hassign
    rw [htail] at hfin
    simp only [List.cons_append, List.length_cons, List.length_append,
      List.length_nil] at hfin ⊢
    rw [show tail.length + 1 + 1 + 1 + 1 = tail.length + 3 + 1 by omega]
    rw [hfin]
    rfl
  · rename_i heq
    exact absurd rfl (heq _)

/-- C7: serializing any control message with `WriteLine` and reading the
resulting buffer back with `LineReader.Next` yields exactly the original
message (and consumes the whole line). -/
theorem C7_roundtrip (m : Message) :
    lineNext (WriteLine m) = (.msg m, []) := by
  rw [lineNext, scanNext_writeLine]
  simp [parseMessage_marshal]

end Wrapper
